import Mathlib

/-!
Verification of the filesystem protocol server in `src/index.ts`
(class `MyContainer`: the virtual file table `fileSystemStorage`, the
durable-store mirror under keys `fs:<path>`, the operation dispatcher
`performFileSystemOperation`, the length-prefixed frame decoder inside
`handleFilesystemConnection`, and the startup recovery in `onStart`).

JavaScript strings are modelled as `List Char`, `Uint8Array` contents as
`List Nat` whose elements are byte values (the `Uint8Array` constructor
reduces its numeric inputs mod 256, which the model applies explicitly),
and the two `Map`/durable-store objects as association lists with
JavaScript `Map` semantics (`set` replaces in place or appends, `delete`
removes, `keys` enumerates in order).
-/

/-- Model of a JavaScript string: its sequence of characters. -/
abbrev JSString := List Char

/-- Model of a `Map<string, Uint8Array>` (and of the durable key-value store):
an association list from string keys to byte sequences. -/
abbrev StorageMap := List (JSString × List Nat)

/-- Model of `Map.prototype.get`: the value of the first entry with the key. -/
def mapGet : StorageMap → JSString → Option (List Nat)
  | [], _ => none
  | (k', v) :: t, k => if k' = k then some v else mapGet t k

/-- Model of `Map.prototype.set`: replace the existing entry in place,
otherwise append a new entry at the end. -/
def mapSet : StorageMap → JSString → List Nat → StorageMap
  | [], k, v => [(k, v)]
  | (k', v') :: t, k, v => if k' = k then (k, v) :: t else (k', v') :: mapSet t k v

/-- Model of `Map.prototype.delete`'s effect on the entries: remove the
entries with the key. -/
def mapDelete : StorageMap → JSString → StorageMap
  | [], _ => []
  | (k', v') :: t, k => if k' = k then mapDelete t k else (k', v') :: mapDelete t k

/-- Model of `Map.prototype.has`. -/
def mapHas (m : StorageMap) (k : JSString) : Bool :=
  (mapGet m k).isSome

/-- Model of `Map.prototype.keys` (as consumed by `Array.from`): the keys in
entry order. -/
def mapKeys (m : StorageMap) : List JSString :=
  m.map Prod.fst

/-- Model of the JavaScript expression `x || d` for an optional number `x`:
both `undefined` and `0` are falsy and give the default. -/
def jsOr (x : Option Nat) (d : Nat) : Nat :=
  match x with
  | some n => if n = 0 then d else n
  | none => d

/-- Model of `TypedArray.prototype.slice(b, e)` for non-negative indices:
the elements in `[b, e)`, clipped to the array bounds. -/
def jsSlice (l : List Nat) (b e : Nat) : List Nat :=
  (l.take e).drop b

/-- Model of `TypedArray.prototype.set(xs, i)` on a target `l` long enough to
hold `xs` at position `i` (every use in the source satisfies this, so no
`RangeError` path is needed). -/
def overlay (l : List Nat) (i : Nat) (xs : List Nat) : List Nat :=
  l.take i ++ xs ++ l.drop (i + xs.length)

/-- Helper for the readdir name filter: keep an element only at its first
occurrence and only if it is non-empty, carrying the set of already seen
elements. This is the effect of the source filter
`(name, index, arr) => arr.indexOf(name) === index && name`. -/
def dedupGo (seen : List JSString) : List JSString → List JSString
  | [] => []
  | x :: xs =>
      if x ∈ seen then dedupGo seen xs
      else if x = [] then dedupGo (x :: seen) xs
      else x :: dedupGo (x :: seen) xs

/-- The readdir name filter of the source, starting from no seen names. -/
def dedupFirstKeep (l : List JSString) : List JSString :=
  dedupGo [] l

/-- The durable-store key for a path: the template literal `fs:<path>`. -/
def fsKey (p : JSString) : JSString :=
  "fs:".toList ++ p

/-- The `FSMessage` interface of `src/index.ts`. -/
structure FSMessage where
  id : Nat
  operation : String
  path : JSString
  data : Option (List Nat) := none
  offset : Option Nat := none
  size : Option Nat := none
deriving DecidableEq

/-- The `stat` payload inside `FSResponse`. -/
structure FSStat where
  size : Nat
  isFile : Bool
  isDir : Bool
  mtime : Nat
deriving DecidableEq

/-- The `FSResponse` interface of `src/index.ts`; absent fields are `none`. -/
structure FSResponse where
  id : Nat
  data : Option (List Nat) := none
  bytesWritten : Option Nat := none
  files : Option (List JSString) := none
  stat : Option FSStat := none
  success : Option Bool := none
  error : Option String := none
deriving DecidableEq

/-- The mutable state of one `MyContainer` instance: the in-memory virtual
file table `fileSystemStorage` and the durable store `this.ctx.storage`. -/
structure ContainerState where
  fileSystemStorage : StorageMap
  storage : StorageMap
deriving DecidableEq

/-- Model of `MyContainer.performFileSystemOperation` (src/index.ts lines
132-189). `now` stands for the value of `Date.now()` used by `stat`. The
result is the `FSResponse` together with the state after the operation. -/
def performFileSystemOperation (st : ContainerState) (now : Nat) (m : FSMessage) :
    FSResponse × ContainerState :=
  if m.operation = "read" then
    match mapGet st.fileSystemStorage m.path with
    | none => ({ id := m.id, error := some "File not found" }, st)
    | some fileData =>
        ({ id := m.id,
           data := some (jsSlice fileData (jsOr m.offset 0)
             (jsOr m.offset 0 + jsOr m.size fileData.length)) }, st)
  else if m.operation = "write" then
    let writeData := (m.data.getD []).map (fun b => b % 256)
    let newTable :=
      if jsOr m.offset 0 ≠ 0 then
        let existing := (mapGet st.fileSystemStorage m.path).getD []
        let n := max existing.length (jsOr m.offset 0 + writeData.length)
        mapSet st.fileSystemStorage m.path
          (overlay (overlay (List.replicate n 0) 0 existing) (jsOr m.offset 0) writeData)
      else
        mapSet st.fileSystemStorage m.path writeData
    ({ id := m.id, bytesWritten := some writeData.length },
     { fileSystemStorage := newTable,
       storage := mapSet st.storage (fsKey m.path) writeData })
  else if m.operation = "stat" then
    match mapGet st.fileSystemStorage m.path with
    | none => ({ id := m.id, error := some "File not found" }, st)
    | some statData =>
        ({ id := m.id,
           stat := some { size := statData.length, isFile := true, isDir := false,
                          mtime := now } }, st)
  else if m.operation = "readdir" then
    let filt := if m.path = "/".toList then [] else m.path
    let files :=
      dedupFirstKeep
        (((mapKeys st.fileSystemStorage).filter (fun k => filt.isPrefixOf k)).map
          (fun k => (k.drop m.path.length).takeWhile (fun c => c ≠ '/')))
    ({ id := m.id, files := some files }, st)
  else if m.operation = "unlink" then
    ({ id := m.id, success := some (mapHas st.fileSystemStorage m.path) },
     { fileSystemStorage := mapDelete st.fileSystemStorage m.path,
       storage := mapDelete st.storage (fsKey m.path) })
  else
    ({ id := m.id, error := some "Unknown operation" }, st)

/-- Model of the recovery loop in `onStart` (src/index.ts lines 247-252):
enumerate the durable-store entries under prefix `fs:` and reinsert each
under the path obtained by stripping the three-character prefix. The
enumeration order cannot matter for the rebuilt contents because durable
keys are distinct and stripping the fixed prefix keeps them distinct. -/
def rebuildTable (storage : StorageMap) : StorageMap :=
  (storage.filter (fun kv => "fs:".toList.isPrefixOf kv.1)).foldl
    (fun t kv => mapSet t (kv.1.drop 3) kv.2) []

/-- Model of `new DataView(buffer.buffer).getUint32(0, true)`: the
little-endian 32-bit value formed by the first four bytes of the buffer
(each buffer element is a `Uint8Array` cell, hence a value mod 256). -/
def readUint32LE (b : List Nat) : Nat :=
  match b with
  | b0 :: b1 :: b2 :: b3 :: _ =>
      b0 % 256 + 256 * (b1 % 256) + 65536 * (b2 % 256) + 16777216 * (b3 % 256)
  | _ => 0

/-- One pass of the inner decode loop of `handleFilesystemConnection`
(src/index.ts lines 209-232), written with explicit fuel so that it is
structurally recursive: while at least `4 + declared length` bytes are
buffered, emit the payload slice and consume `4 + declared length` bytes.
Each iteration consumes at least 4 bytes, so fuel `buffer.length` always
suffices (`drainAux_congr` below makes this precise). -/
def drainAux : Nat → List Nat → List (List Nat) × List Nat
  | 0, buffer => ([], buffer)
  | fuel + 1, buffer =>
      if 4 ≤ buffer.length then
        if 4 + readUint32LE buffer ≤ buffer.length then
          let out := drainAux fuel (buffer.drop (4 + readUint32LE buffer))
          (jsSlice buffer 4 (4 + readUint32LE buffer) :: out.1, out.2)
        else ([], buffer)
      else ([], buffer)

/-- The inner decode loop: feed the whole buffer through `drainAux` with
sufficient fuel, returning the decoded message payloads in order and the
unconsumed remainder of the buffer. -/
def drainBuffer (buffer : List Nat) : List (List Nat) × List Nat :=
  drainAux buffer.length buffer

/-- Model of the outer read loop of `handleFilesystemConnection`
(src/index.ts lines 198-232) restricted to its buffer evolution: each
arriving chunk is appended to the accumulation buffer, then the inner
decode loop extracts every complete frame. Returns all decoded message
payloads in order and the final leftover buffer. -/
def feedChunks (chunks : List (List Nat)) : List (List Nat) × List Nat :=
  chunks.foldl
    (fun acc value =>
      let out := drainBuffer (acc.2 ++ value)
      (acc.1 ++ out.1, out.2))
    ([], [])

/-- Initial empty container state. -/
def emptyState : ContainerState :=
  { fileSystemStorage := [], storage := [] }

/-- Concrete offset-write request: write the single byte `Y` (89) at offset
5 to path `/f`. -/
def spliceWriteMsg : FSMessage :=
  { id := 1, operation := "write", path := "/f".toList, data := some [89],
    offset := some 5 }

/-- Concrete read request with an explicit `size` of 0 against path `/f`. -/
def sizeZeroReadMsg : FSMessage :=
  { id := 2, operation := "read", path := "/f".toList, size := some 0 }

/-- Concrete state holding a one-byte entry at `/f`, mirrored durably. -/
def oneByteState : ContainerState :=
  { fileSystemStorage := [("/f".toList, [1])],
    storage := [(fsKey "/f".toList, [1])] }

/-- Concrete state with entries `/a/x`, `/a/y` and `/a/x/z`. -/
def readdirState : ContainerState :=
  { fileSystemStorage := [("/a/x".toList, [1]), ("/a/y".toList, [2]), ("/a/x/z".toList, [3])],
    storage := [] }

/-- Concrete readdir request on directory `/a/`. -/
def readdirMsg : FSMessage :=
  { id := 3, operation := "readdir", path := "/a/".toList }

/-- Concrete request whose operation string matches no case of the switch. -/
def unknownOpMsg : FSMessage :=
  { id := 4, operation := "chmod", path := "/f".toList }
/-- Spec-side description of the read result, following the amended claim's
words: the byte slice `[offset, offset+size)` of the contents clipped to the
entry length, where an absent offset defaults to 0 and an absent or zero
size defaults to the remaining length `len c - offset`. -/
def specReadSlice (c : List Nat) (off sz : Option Nat) : List Nat :=
  (c.drop (off.getD 0)).take
    (match sz with
     | some s => if s = 0 then c.length - off.getD 0 else s
     | none => c.length - off.getD 0)

/-- Looking up the key just inserted by `mapSet` returns the inserted value. -/
theorem mapGet_mapSet_self (m : StorageMap) (k : JSString) (v : List Nat) :
    mapGet (mapSet m k v) k = some v := by
  induction m with
  | nil => simp [mapGet, mapSet]
  | cons kv t ih =>
      obtain ⟨k', v'⟩ := kv
      by_cases h : k' = k
      · simp [mapSet, mapGet, h]
      · simp [mapSet, mapGet, h, ih]

/-- Looking up a key just removed by `mapDelete` returns nothing. -/
theorem mapGet_mapDelete_self (m : StorageMap) (k : JSString) :
    mapGet (mapDelete m k) k = none := by
  induction m with
  | nil => simp [mapDelete, mapGet]
  | cons kv t ih =>
      obtain ⟨k', v'⟩ := kv
      by_cases h : k' = k
      · simp [mapDelete, h, ih]
      · simp [mapDelete, mapGet, h, ih]

/-- C1: the claim fails on the code. Writing byte 89 at offset 5 to path
`/f` (entry absent) leaves the in-memory entry `[0,0,0,0,0,89]`, but the
durable key `fs:/f` holds only the newly written data `[89]`: the source
persists `writeData` rather than the spliced `newData`. -/
theorem write_offset_persists_only_new_bytes :
    mapGet (performFileSystemOperation emptyState 0 spliceWriteMsg).2.fileSystemStorage
        "/f".toList = some [0, 0, 0, 0, 0, 89] ∧
    mapGet (performFileSystemOperation emptyState 0 spliceWriteMsg).2.storage
        (fsKey "/f".toList) = some [89] ∧
    ([89] : List Nat) ≠ [0, 0, 0, 0, 0, 89] := by
  decide

/-- C2: the claim fails on the code. After the acknowledged offset write of
byte 89 at offset 5 to `/f`, rebuilding the table from the durable store
(the `onStart` recovery) yields entry `[89]` at `/f`, while the in-memory
table at the moment of the acknowledgement holds `[0,0,0,0,0,89]`. -/
theorem rebuild_after_offset_write_mismatch :
    mapGet (rebuildTable (performFileSystemOperation emptyState 0 spliceWriteMsg).2.storage)
        "/f".toList = some [89] ∧
    mapGet (performFileSystemOperation emptyState 0 spliceWriteMsg).2.fileSystemStorage
        "/f".toList = some [0, 0, 0, 0, 0, 89] ∧
    some ([89] : List Nat) ≠ some [0, 0, 0, 0, 0, 89] := by
  decide

/-- C4: the claim fails on the code. The decode loop checks no upper bound
on the declared length: on a length word declaring 4294967295 bytes it
emits no message, raises no error, and keeps the bytes buffered, still
accumulating further chunks (here 64 more bytes) without complaint. -/
theorem oversized_declared_length_keeps_buffering :
    readUint32LE [255, 255, 255, 255] = 4294967295 ∧
    drainBuffer [255, 255, 255, 255] = ([], [255, 255, 255, 255]) ∧
    feedChunks [[255, 255, 255, 255], List.replicate 64 1]
        = ([], [255, 255, 255, 255] ++ List.replicate 64 1) := by
  decide

/-- C9: unlink answers `success := true` exactly when an entry existed,
removes the entry from both the table and the durable store, and a second
unlink of the same path therefore answers `success := false`. -/
theorem unlink_success_iff_existed (st : ContainerState) (now1 now2 i1 i2 : Nat)
    (p : JSString) :
    (performFileSystemOperation st now1
        { id := i1, operation := "unlink", path := p }).1.success
      = some (mapHas st.fileSystemStorage p) ∧
    mapGet (performFileSystemOperation st now1
        { id := i1, operation := "unlink", path := p }).2.fileSystemStorage p = none ∧
    mapGet (performFileSystemOperation st now1
        { id := i1, operation := "unlink", path := p }).2.storage (fsKey p) = none ∧
    (performFileSystemOperation
        (performFileSystemOperation st now1
          { id := i1, operation := "unlink", path := p }).2 now2
        { id := i2, operation := "unlink", path := p }).1.success = some false := by
  simp [performFileSystemOperation, mapHas, mapGet_mapDelete_self]

/-- C5: writing `data` to a path with no offset and then reading that path
at offset 0 with size `len data` returns exactly `data` (for byte-valued
data, matching the `Uint8Array` cells). -/
theorem write_then_read_roundtrip (st : ContainerState) (now1 now2 i1 i2 : Nat)
    (p : JSString) (data : List Nat) (hbytes : ∀ b ∈ data, b < 256) :
    (performFileSystemOperation
        (performFileSystemOperation st now1
          { id := i1, operation := "write", path := p, data := some data }).2 now2
        { id := i2, operation := "read", path := p, offset := some 0,
          size := some data.length }).1.data = some data ∧
    (performFileSystemOperation
        (performFileSystemOperation st now1
          { id := i1, operation := "write", path := p, data := some data }).2 now2
        { id := i2, operation := "read", path := p, offset := some 0,
          size := some data.length }).1.error = none := by
  have hmap : data.map (fun b => b % 256) = data := by
    rw [List.map_congr_left (fun b hb => Nat.mod_eq_of_lt (hbytes b hb))]
    exact List.map_id' data
  simp [performFileSystemOperation, jsOr, jsSlice, hmap, mapGet_mapSet_self]

/-- C5 witness: a concrete round trip through path `/a` with data
`[1, 2, 3]`. -/
theorem write_then_read_roundtrip_witness :
    (∀ b ∈ ([1, 2, 3] : List Nat), b < 256) ∧
    (performFileSystemOperation
        (performFileSystemOperation emptyState 0
          { id := 5, operation := "write", path := "/a".toList, data := some [1, 2, 3] }).2 0
        { id := 6, operation := "read", path := "/a".toList, offset := some 0,
          size := some ([1, 2, 3] : List Nat).length }).1.data = some [1, 2, 3] := by
  refine ⟨by decide, ?_⟩
  exact (write_then_read_roundtrip emptyState 0 0 5 6 "/a".toList [1, 2, 3] (by decide)).1

/-- C10: read, stat, readdir and unrecognized operations leave the table
and the durable store untouched; an unrecognized operation answers only
the error `Unknown operation`. -/
theorem query_ops_leave_state_unchanged (st : ContainerState) (now : Nat) (m : FSMessage)
    (hw : m.operation ≠ "write") (hu : m.operation ≠ "unlink") :
    (performFileSystemOperation st now m).2 = st ∧
    (m.operation ≠ "read" → m.operation ≠ "stat" → m.operation ≠ "readdir" →
      (performFileSystemOperation st now m).1
        = { id := m.id, error := some "Unknown operation" }) := by
  by_cases h1 : m.operation = "read"
  · constructor
    · cases hm : mapGet st.fileSystemStorage m.path <;>
        simp [performFileSystemOperation, h1, hm]
    · exact fun hr _ _ => absurd h1 hr
  by_cases h2 : m.operation = "stat"
  · constructor
    · cases hm : mapGet st.fileSystemStorage m.path <;>
        simp [performFileSystemOperation, h1, hw, h2, hm]
    · exact fun _ hs _ => absurd h2 hs
  by_cases h3 : m.operation = "readdir"
  · constructor
    · simp [performFileSystemOperation, h1, hw, h2, h3]
    · exact fun _ _ hd => absurd h3 hd
  constructor
  · simp [performFileSystemOperation, h1, hw, h2, h3, hu]
  · intro _ _ _
    simp [performFileSystemOperation, h1, hw, h2, h3, hu]

/-- C10 witness: the operation `chmod` on a non-empty state changes nothing
and yields only the unknown-operation error. -/
theorem query_ops_leave_state_unchanged_witness :
    unknownOpMsg.operation ≠ "write" ∧
    (performFileSystemOperation oneByteState 0 unknownOpMsg).2 = oneByteState ∧
    (performFileSystemOperation oneByteState 0 unknownOpMsg).1
      = { id := 4, error := some "Unknown operation" } := by
  have h := query_ops_leave_state_unchanged oneByteState 0 unknownOpMsg
    (by decide) (by decide)
  exact ⟨by decide, h.1, h.2 (by decide) (by decide) (by decide)⟩

/-- The JavaScript default `x || 0` equals plain defaulting to 0, because a
present value 0 and the default coincide. -/
theorem jsOr_zero (x : Option Nat) : jsOr x 0 = x.getD 0 := by
  cases x with
  | none => rfl
  | some n =>
      simp only [jsOr, Option.getD_some]
      split
      · omega
      · rfl

/-- A slice starting at `b` of length `sz` is the first `sz` elements after
dropping `b`. -/
theorem jsSlice_drop_take (c : List Nat) (b sz : Nat) :
    jsSlice c b (b + sz) = (c.drop b).take sz := by
  rw [jsSlice, List.drop_take]
  congr 1
  omega

/-- The source's read slice coincides with the amended claim's slice. -/
theorem jsSlice_eq_specReadSlice (c : List Nat) (off sz : Option Nat) :
    jsSlice c (jsOr off 0) (jsOr off 0 + jsOr sz c.length)
      = specReadSlice c off sz := by
  rw [jsSlice_drop_take, specReadSlice.eq_def, jsOr_zero]
  cases sz with
  | none =>
      simp only [jsOr]
      rw [List.take_of_length_le (by simp), List.take_of_length_le (by simp)]
  | some s =>
      by_cases h0 : s = 0
      · simp only [jsOr, h0, if_pos]
        rw [List.take_of_length_le (by simp), List.take_of_length_le (by simp)]
      · simp [jsOr, h0]

/-- C3 (amended): a read on an existing entry `c` answers the byte slice
`[offset, offset+size)` of `c` clipped to the entry length, where an absent
offset defaults to 0 and an absent or zero size defaults to the remaining
length; a read on an absent path answers the error `File not found`; the
state is unchanged. -/
theorem read_returns_clipped_slice (st : ContainerState) (now : Nat) (m : FSMessage)
    (hop : m.operation = "read") :
    (performFileSystemOperation st now m).2 = st ∧
    (mapGet st.fileSystemStorage m.path = none →
      (performFileSystemOperation st now m).1
        = { id := m.id, error := some "File not found" }) ∧
    ∀ c, mapGet st.fileSystemStorage m.path = some c →
      (performFileSystemOperation st now m).1
        = { id := m.id, data := some (specReadSlice c m.offset m.size) } := by
  refine ⟨?_, ?_, ?_⟩
  · cases hm : mapGet st.fileSystemStorage m.path <;>
      simp [performFileSystemOperation, hop, hm]
  · intro hm
    simp [performFileSystemOperation, hop, hm]
  · intro c hm
    simp [performFileSystemOperation, hop, hm, jsSlice_eq_specReadSlice]

/-- C3 witness: reading `/f` (entry `[1]`) with explicit size 0 matches the
amended slice, which defaults the zero size to the remaining length. -/
theorem read_returns_clipped_slice_witness :
    sizeZeroReadMsg.operation = "read" ∧
    mapGet oneByteState.fileSystemStorage sizeZeroReadMsg.path = some [1] ∧
    (performFileSystemOperation oneByteState 0 sizeZeroReadMsg).1
      = { id := 2, data := some (specReadSlice [1] none (some 0)) } := by
  have h := read_returns_clipped_slice oneByteState 0 sizeZeroReadMsg rfl
  exact ⟨rfl, by decide, h.2.2 [1] (by decide)⟩

/-- C3 counterexample: with entry `[1]` at `/f`, a read with explicit size 0
must by the claim as stated return the slice `[0, 0+0)` of the contents,
the empty sequence; the code instead returns the whole remaining entry. -/
theorem read_size_zero_refutes_claim :
    (performFileSystemOperation oneByteState 0 sizeZeroReadMsg).1.data = some [1] ∧
    (([1] : List Nat).drop 0).take 0 = [] ∧
    (performFileSystemOperation oneByteState 0 sizeZeroReadMsg).1.data
      ≠ some ([] : List Nat) := by
  decide

/-- Splicing `wd` at position `off` into `e` through the source's pair of
`TypedArray.set` calls on a fresh zero buffer, when `off` is at least the
current length, appends a zero-filled gap and then the new data. -/
theorem overlay_splice (e wd : List Nat) (off : Nat) (h : e.length ≤ off) :
    overlay (overlay (List.replicate (max e.length (off + wd.length)) 0) 0 e) off wd
      = e ++ List.replicate (off - e.length) 0 ++ wd := by
  have hn : max e.length (off + wd.length) = off + wd.length :=
    Nat.max_eq_right (Nat.le_trans h (Nat.le_add_right _ _))
  rw [hn]
  have h1 : overlay (List.replicate (off + wd.length) 0) 0 e
      = e ++ List.replicate (off + wd.length - e.length) 0 := by
    simp [overlay]
  rw [h1]
  unfold overlay
  rw [List.take_append_eq_append_take, List.take_of_length_le h, List.take_replicate]
  have h2 : min (off - e.length) (off + wd.length - e.length) = off - e.length := by
    apply Nat.min_eq_left
    omega
  have h3 : (e ++ List.replicate (off + wd.length - e.length) 0).drop (off + wd.length)
      = [] := by
    rw [List.drop_eq_nil_iff]
    simp
    omega
  rw [h2, h3]
  simp

/-- C7: a write at a non-zero offset at or past the current entry length
(with the entry absent read as empty) grows the entry: the result is the
existing bytes, then a zero-filled gap up to the offset, then the written
data; `bytesWritten` is the data length. -/
theorem write_splice_entry (st : ContainerState) (now i : Nat) (p : JSString)
    (data : List Nat) (off : Nat) (hoff : off ≠ 0)
    (hgrow : ((mapGet st.fileSystemStorage p).getD []).length ≤ off) :
    mapGet (performFileSystemOperation st now
        { id := i, operation := "write", path := p, data := some data,
          offset := some off }).2.fileSystemStorage p
      = some ((mapGet st.fileSystemStorage p).getD []
          ++ List.replicate (off - ((mapGet st.fileSystemStorage p).getD []).length) 0
          ++ data.map (fun b => b % 256)) ∧
    (performFileSystemOperation st now
        { id := i, operation := "write", path := p, data := some data,
          offset := some off }).1.bytesWritten = some data.length := by
  have hjs : jsOr (some off) 0 = off := by simp [jsOr, hoff]
  constructor
  · have key := overlay_splice ((mapGet st.fileSystemStorage p).getD [])
      (data.map (fun b => b % 256)) off hgrow
    rw [List.length_map] at key
    simp [performFileSystemOperation, hjs, hoff, mapGet_mapSet_self]
    rw [key]
    simp [List.append_assoc]
  · simp [performFileSystemOperation]

/-- C7 witness: writing byte 89 (`Y`) at offset 5 to the absent entry `/f`
produces the six-byte entry with five zero bytes followed by 89. -/
theorem write_splice_entry_witness :
    (5 : Nat) ≠ 0 ∧
    ((mapGet emptyState.fileSystemStorage "/f".toList).getD []).length ≤ 5 ∧
    mapGet (performFileSystemOperation emptyState 0 spliceWriteMsg).2.fileSystemStorage
        "/f".toList = some [0, 0, 0, 0, 0, 89] := by
  have h := write_splice_entry emptyState 0 1 "/f".toList [89] 5 (by decide) (by decide)
  exact ⟨by decide, by decide, h.1.trans (by decide)⟩

/-- The declared length only depends on the first four bytes. -/
theorem readUint32LE_append (a b : List Nat) (h : 4 ≤ a.length) :
    readUint32LE (a ++ b) = readUint32LE a := by
  match a with
  | [] => simp at h
  | [a0] => simp at h
  | [a0, a1] => simp at h
  | [a0, a1, a2] => simp at h
  | a0 :: a1 :: a2 :: a3 :: rest => rfl

/-- The decode loop ignores the fuel as soon as the fuel covers the buffer
length, because every iteration consumes at least four bytes. -/
theorem drainAux_congr : ∀ (n f1 f2 : Nat) (buffer : List Nat),
    buffer.length ≤ n → buffer.length ≤ f1 → buffer.length ≤ f2 →
    drainAux f1 buffer = drainAux f2 buffer := by
  intro n
  induction n with
  | zero =>
      intro f1 f2 buffer hn h1 h2
      have hb : buffer = [] := List.length_eq_zero.mp (Nat.le_zero.mp hn)
      subst hb
      cases f1 <;> cases f2 <;> simp [drainAux]
  | succ n ih =>
      intro f1 f2 buffer hn h1 h2
      by_cases h4 : 4 ≤ buffer.length
      · cases f1 with
        | zero => omega
        | succ f1' =>
            cases f2 with
            | zero => omega
            | succ f2' =>
                by_cases hm : 4 + readUint32LE buffer ≤ buffer.length
                · simp only [drainAux, if_pos h4, if_pos hm]
                  rw [ih f1' f2' (buffer.drop (4 + readUint32LE buffer))
                    (by simp; omega) (by simp; omega) (by simp; omega)]
                · simp only [drainAux, if_pos h4, if_neg hm]
      · cases f1 <;> cases f2 <;> simp [drainAux, h4]

/-- One-step unfolding of the decode loop in terms of itself. -/
theorem drainBuffer_step (buffer : List Nat) :
    drainBuffer buffer =
      if 4 ≤ buffer.length then
        if 4 + readUint32LE buffer ≤ buffer.length then
          (jsSlice buffer 4 (4 + readUint32LE buffer)
              :: (drainBuffer (buffer.drop (4 + readUint32LE buffer))).1,
           (drainBuffer (buffer.drop (4 + readUint32LE buffer))).2)
        else ([], buffer)
      else ([], buffer) := by
  have h := drainAux_congr (buffer.length + 1) buffer.length (buffer.length + 1) buffer
    (by omega) le_rfl (by omega)
  rw [drainBuffer, h]
  by_cases h4 : 4 ≤ buffer.length
  · by_cases hm : 4 + readUint32LE buffer ≤ buffer.length
    · have hr : drainAux buffer.length (buffer.drop (4 + readUint32LE buffer))
          = drainBuffer (buffer.drop (4 + readUint32LE buffer)) :=
        drainAux_congr buffer.length buffer.length
          (buffer.drop (4 + readUint32LE buffer)).length
          (buffer.drop (4 + readUint32LE buffer)) (by simp) (by simp) le_rfl
      simp only [drainAux, if_pos h4, if_pos hm, hr]
    · simp only [drainAux, if_pos h4, if_neg hm]
  · simp only [drainAux, if_neg h4]

/-- Auxiliary form of the append law for the decode loop, by induction on a
bound for the first buffer's length. -/
theorem drainBuffer_append_aux : ∀ (n : Nat) (a : List Nat), a.length ≤ n →
    ∀ b : List Nat,
    drainBuffer (a ++ b)
      = ((drainBuffer a).1 ++ (drainBuffer ((drainBuffer a).2 ++ b)).1,
         (drainBuffer ((drainBuffer a).2 ++ b)).2) := by
  intro n
  induction n with
  | zero =>
      intro a ha b
      have hb : a = [] := List.length_eq_zero.mp (Nat.le_zero.mp ha)
      subst hb
      simp [drainBuffer, drainAux]
  | succ n ih =>
      intro a ha b
      rw [drainBuffer_step a]
      by_cases h4 : 4 ≤ a.length
      · by_cases hm : 4 + readUint32LE a ≤ a.length
        · simp only [if_pos h4, if_pos hm]
          rw [drainBuffer_step (a ++ b)]
          have hL : readUint32LE (a ++ b) = readUint32LE a := readUint32LE_append a b h4
          rw [hL, if_pos (by simp; omega), if_pos (by simp; omega)]
          have hslice : jsSlice (a ++ b) 4 (4 + readUint32LE a)
              = jsSlice a 4 (4 + readUint32LE a) := by
            simp [jsSlice, List.take_append_of_le_length hm]
          have hdrop : (a ++ b).drop (4 + readUint32LE a)
              = a.drop (4 + readUint32LE a) ++ b :=
            List.drop_append_of_le_length hm
          rw [hslice, hdrop, ih (a.drop (4 + readUint32LE a)) (by simp; omega) b]
          simp
        · simp only [if_pos h4, if_neg hm]
          simp
      · simp only [if_neg h4]
        simp

/-- Append law for the decode loop: decoding `a ++ b` first yields the
messages of `a`, then continues on `a`'s leftover followed by `b`. -/
theorem drainBuffer_append (a b : List Nat) :
    drainBuffer (a ++ b)
      = ((drainBuffer a).1 ++ (drainBuffer ((drainBuffer a).2 ++ b)).1,
         (drainBuffer ((drainBuffer a).2 ++ b)).2) :=
  drainBuffer_append_aux a.length a le_rfl b

/-- Auxiliary form of the residual law: the leftover of the decode loop
contains no further complete frame. -/
theorem drainBuffer_residual_aux : ∀ (n : Nat) (a : List Nat), a.length ≤ n →
    drainBuffer ((drainBuffer a).2) = ([], (drainBuffer a).2) := by
  intro n
  induction n with
  | zero =>
      intro a ha
      have hb : a = [] := List.length_eq_zero.mp (Nat.le_zero.mp ha)
      subst hb
      simp [drainBuffer, drainAux]
  | succ n ih =>
      intro a ha
      rw [drainBuffer_step a]
      by_cases h4 : 4 ≤ a.length
      · by_cases hm : 4 + readUint32LE a ≤ a.length
        · simp only [if_pos h4, if_pos hm]
          exact ih (a.drop (4 + readUint32LE a)) (by simp; omega)
        · simp only [if_pos h4, if_neg hm]
          rw [drainBuffer_step a]
          simp only [if_pos h4, if_neg hm]
      · simp only [if_neg h4]
        rw [drainBuffer_step a]
        simp only [if_neg h4]

/-- Residual law for the decode loop. -/
theorem drainBuffer_residual (a : List Nat) :
    drainBuffer ((drainBuffer a).2) = ([], (drainBuffer a).2) :=
  drainBuffer_residual_aux a.length a le_rfl

/-- The chunked feed, started from accumulated messages `ms` and a leftover
`r` holding no complete frame, equals one decode over `r` followed by the
joined chunks. -/
theorem feedChunks_foldl : ∀ (chunks : List (List Nat)) (ms : List (List Nat))
    (r : List Nat), drainBuffer r = ([], r) →
    chunks.foldl
        (fun acc value =>
          let out := drainBuffer (acc.2 ++ value)
          (acc.1 ++ out.1, out.2)) (ms, r)
      = (ms ++ (drainBuffer (r ++ chunks.flatten)).1,
         (drainBuffer (r ++ chunks.flatten)).2) := by
  intro chunks
  induction chunks with
  | nil =>
      intro ms r hr
      simp [hr]
  | cons c cs ih =>
      intro c_ms c_r hr
      simp only [List.foldl_cons]
      rw [ih (c_ms ++ (drainBuffer (c_r ++ c)).1) (drainBuffer (c_r ++ c)).2
        (drainBuffer_residual (c_r ++ c))]
      have happ := drainBuffer_append (c_r ++ c) cs.flatten
      rw [List.flatten_cons, ← List.append_assoc, happ]
      simp [List.append_assoc]

/-- C6: the decoded message sequence is invariant under how the byte stream
is split into chunks (feeding the chunks equals feeding the joined stream
whole, both in messages and in leftover); a frame is emitted only once at
least `4 + declared length` bytes are buffered, and then exactly that many
bytes are consumed. -/
theorem frame_reassembly (chunks : List (List Nat)) (buf : List Nat) :
    feedChunks chunks = drainBuffer chunks.flatten ∧
    feedChunks chunks = feedChunks [chunks.flatten] ∧
    (buf.length < 4 + readUint32LE buf → drainBuffer buf = ([], buf)) ∧
    (4 + readUint32LE buf ≤ buf.length →
      drainBuffer buf
        = (jsSlice buf 4 (4 + readUint32LE buf)
             :: (drainBuffer (buf.drop (4 + readUint32LE buf))).1,
           (drainBuffer (buf.drop (4 + readUint32LE buf))).2)) := by
  have main : ∀ ch : List (List Nat), feedChunks ch = drainBuffer ch.flatten := by
    intro ch
    unfold feedChunks
    rw [feedChunks_foldl ch [] [] (by simp [drainBuffer, drainAux])]
    simp
  refine ⟨main chunks, ?_, ?_, ?_⟩
  · rw [main chunks, main [chunks.flatten]]
    simp
  · intro hlt
    rw [drainBuffer_step]
    by_cases h4 : 4 ≤ buf.length
    · rw [if_pos h4, if_neg (by omega)]
    · rw [if_neg h4]
  · intro hge
    rw [drainBuffer_step, if_pos (by omega), if_pos hge]

/-- C6 witness: a two-frame stream split in the middle of a length word and
in the middle of a payload decodes to the same two messages as the whole
stream fed at once. -/
theorem frame_reassembly_witness :
    feedChunks [[3, 0], [0, 0, 7, 8, 9, 2, 0, 0], [0, 10, 11]]
        = drainBuffer ([[3, 0], [0, 0, 7, 8, 9, 2, 0, 0], [0, 10, 11]]
            : List (List Nat)).flatten ∧
    feedChunks [[3, 0], [0, 0, 7, 8, 9, 2, 0, 0], [0, 10, 11]]
        = ([[7, 8, 9], [10, 11]], []) ∧
    drainBuffer [3, 0, 0, 0, 7, 8] = ([], [3, 0, 0, 0, 7, 8]) := by
  exact ⟨(frame_reassembly [[3, 0], [0, 0, 7, 8, 9, 2, 0, 0], [0, 10, 11]] []).1,
    by decide, by decide⟩

/-- Membership in the readdir name filter: a name survives exactly when it
occurs in the input, was not already seen, and is non-empty. -/
theorem mem_dedupGo (x : JSString) (l : List JSString) : ∀ seen : List JSString,
    x ∈ dedupGo seen l ↔ x ∈ l ∧ x ∉ seen ∧ x ≠ [] := by
  induction l with
  | nil => intro seen; simp [dedupGo]
  | cons y ys ih =>
      intro seen
      by_cases hy : y ∈ seen
      · rw [dedupGo, if_pos hy, ih]
        constructor
        · rintro ⟨h1, h2, h3⟩
          exact ⟨List.mem_cons_of_mem _ h1, h2, h3⟩
        · rintro ⟨h1, h2, h3⟩
          refine ⟨?_, h2, h3⟩
          rcases List.mem_cons.mp h1 with rfl | h1'
          · exact absurd hy h2
          · exact h1'
      · by_cases hye : y = []
        · rw [dedupGo, if_neg hy, if_pos hye, ih]
          constructor
          · rintro ⟨h1, h2, h3⟩
            exact ⟨List.mem_cons_of_mem _ h1,
              fun hx => h2 (List.mem_cons_of_mem _ hx), h3⟩
          · rintro ⟨h1, h2, h3⟩
            refine ⟨?_, ?_, h3⟩
            · rcases List.mem_cons.mp h1 with rfl | h1'
              · exact absurd hye h3
              · exact h1'
            · intro hx
              rcases List.mem_cons.mp hx with rfl | hx'
              · exact absurd hye h3
              · exact h2 hx'
        · rw [dedupGo, if_neg hy, if_neg hye, List.mem_cons, ih]
          constructor
          · rintro (rfl | ⟨h1, h2, h3⟩)
            · exact ⟨List.mem_cons_self _ _, hy, hye⟩
            · exact ⟨List.mem_cons_of_mem _ h1,
                fun hx => h2 (List.mem_cons_of_mem _ hx), h3⟩
          · rintro ⟨h1, h2, h3⟩
            rcases List.mem_cons.mp h1 with rfl | h1'
            · exact Or.inl rfl
            · by_cases hxy : x = y
              · exact Or.inl hxy
              · refine Or.inr ⟨h1', ?_, h3⟩
                intro hx
                rcases List.mem_cons.mp hx with h | hx'
                · exact hxy h
                · exact h2 hx'

/-- The readdir name filter emits each name at most once. -/
theorem nodup_dedupGo (l : List JSString) : ∀ seen : List JSString,
    (dedupGo seen l).Nodup := by
  induction l with
  | nil => intro seen; simp [dedupGo]
  | cons y ys ih =>
      intro seen
      by_cases hy : y ∈ seen
      · rw [dedupGo, if_pos hy]
        exact ih seen
      · by_cases hye : y = []
        · rw [dedupGo, if_neg hy, if_pos hye]
          exact ih (y :: seen)
        · rw [dedupGo, if_neg hy, if_neg hye, List.nodup_cons]
          refine ⟨?_, ih (y :: seen)⟩
          intro hmem
          exact ((mem_dedupGo y ys (y :: seen)).mp hmem).2.1 (List.mem_cons_self y seen)

/-- C8: on a table whose paths are absolute (they start with a slash, the
spec's data-model invariant), readdir answers, without error, a list of
names without duplicates whose underlying set is exactly the set of
non-empty first path segments after the request path, over the entries
whose path starts with the request path; the state is unchanged. -/
theorem readdir_children (st : ContainerState) (now : Nat) (m : FSMessage)
    (hop : m.operation = "readdir")
    (habs : ∀ kv ∈ st.fileSystemStorage, ("/".toList).isPrefixOf kv.1) :
    (performFileSystemOperation st now m).2 = st ∧
    (performFileSystemOperation st now m).1.error = none ∧
    (performFileSystemOperation st now m).1.files.isSome = true ∧
    ((performFileSystemOperation st now m).1.files.getD []).Nodup ∧
    ((performFileSystemOperation st now m).1.files.getD []).toFinset
      = (((mapKeys st.fileSystemStorage).filter (fun k => m.path.isPrefixOf k)).map
          (fun k => (k.drop m.path.length).takeWhile (fun c => c ≠ '/'))).toFinset.erase
        [] := by
  have hkeys : ∀ k ∈ mapKeys st.fileSystemStorage, (['/'] : JSString).isPrefixOf k = true := by
    intro k hk
    obtain ⟨kv, hkv, rfl⟩ := List.mem_map.mp hk
    exact habs kv hkv
  refine ⟨?_, ?_, ?_, ?_, ?_⟩
  · simp [performFileSystemOperation, hop]
  · simp [performFileSystemOperation, hop]
  · simp [performFileSystemOperation, hop]
  · simp [performFileSystemOperation, hop, dedupFirstKeep, nodup_dedupGo]
  · by_cases hp : m.path = (['/'] : JSString)
    · have hfe : (mapKeys st.fileSystemStorage).filter
          (fun k => (['/'] : JSString).isPrefixOf k) = mapKeys st.fileSystemStorage :=
        List.filter_eq_self.mpr hkeys
      simp [performFileSystemOperation, hop, dedupFirstKeep, hp, hfe]
      ext a
      simp only [List.mem_toFinset, Finset.mem_erase, mem_dedupGo, List.not_mem_nil,
        not_false_iff, true_and, and_true]
      tauto
    · simp [performFileSystemOperation, hop, dedupFirstKeep, hp]
      ext a
      simp only [List.mem_toFinset, Finset.mem_erase, mem_dedupGo, List.not_mem_nil,
        not_false_iff, true_and, and_true]
      tauto

/-- C8 witness: with entries `/a/x`, `/a/y` and `/a/x/z`, readdir on `/a/`
answers exactly the names `x` and `y`, once each and without error. -/
theorem readdir_children_witness :
    readdirMsg.operation = "readdir" ∧
    (∀ kv ∈ readdirState.fileSystemStorage, ("/".toList).isPrefixOf kv.1) ∧
    (performFileSystemOperation readdirState 0 readdirMsg).1.files
        = some ["x".toList, "y".toList] ∧
    (performFileSystemOperation readdirState 0 readdirMsg).1.error = none ∧
    ((performFileSystemOperation readdirState 0 readdirMsg).1.files.getD []).Nodup ∧
    ((performFileSystemOperation readdirState 0 readdirMsg).1.files.getD []).toFinset
      = (((mapKeys readdirState.fileSystemStorage).filter
            (fun k => readdirMsg.path.isPrefixOf k)).map
          (fun k => (k.drop readdirMsg.path.length).takeWhile
            (fun c => c ≠ '/'))).toFinset.erase [] := by
  have h := readdir_children readdirState 0 readdirMsg rfl (by decide)
  exact ⟨rfl, by decide, by decide, h.2.1, h.2.2.2.1, h.2.2.2.2⟩
